import Mathlib

/-!
Shallow embedding of the TED policy model core
(rasa/core/policies/ted_policy.py) and verification of its
natural-language specification.

Tensors are modelled as nested lists, machine floats as exact rationals,
and the TensorFlow random candidate sampler as an explicit list of drawn
indices constrained by the documented sampler contract.
-/

namespace TedPolicy

/-- Python int() applied to a rational: truncation toward zero. -/
def pyInt (q : ℚ) : Int :=
  if q < 0 then ⌈q⌉ else ⌊q⌋

/-- Number of set entries of a boolean mask, as in np.sum over a 0/1 mask. -/
def maskSum (mask : List Bool) : Nat :=
  (mask.filter (fun b => b)).length

/-- tf.boolean_mask on a flat axis: keep the entries whose mask bit is set. -/
def booleanMask {α : Type} (xs : List α) (bs : List Bool) : List α :=
  (xs.zip bs).filterMap (fun p => if p.2 then some p.1 else none)

/-- Label data as consumed by get_label_sampling_metadata: the label id
array (np.arange over the number of actions) and, per non-label key such
as label_action_name and label_action_text, the per-label presence mask. -/
structure LabelData where
  labelIds : List Nat
  attrs : List (String × List Bool)

/-- Data invariant of RasaModelData label data: one mask bit per label id,
and distinct attribute keys, none of them the bare label key. -/
def LabelData.WellFormed (ld : LabelData) : Prop :=
  (∀ p ∈ ld.attrs, p.2.length = ld.labelIds.length ∧ p.1 ≠ "label") ∧
    (ld.attrs.map Prod.fst).Nodup

/-- Per-key negative-sample count:
num_label_ids_for_key if label_batch_size == -1, else
max(1, int((num_label_ids_for_key / num_labels_ids) * label_batch_size)). -/
def keyLabelBatchSize (numForKey numTotal : Nat) (labelBatchSize : Int) : Nat :=
  if labelBatchSize = -1 then numForKey
  else (max 1 (pyInt (((numForKey : ℚ) / (numTotal : ℚ)) * (labelBatchSize : ℚ)))).toNat

/-- get_label_sampling_metadata: for every key other than the label key,
record the candidate count (sum of the mask) and the number of negative
ids to sample for that key. -/
def getLabelSamplingMetadata (ld : LabelData) (labelBatchSize : Int) :
    List (String × Nat × Nat) :=
  ld.attrs.filterMap (fun p =>
    if p.1 = "label" then none
    else some (p.1, maskSum p.2,
      keyLabelBatchSize (maskSum p.2) ld.labelIds.length labelBatchSize))

/-- The label data of the specification example: 120 label ids, of which
the first 100 carry action_name and the last 20 carry action_text. -/
def exampleLabelData : LabelData :=
  { labelIds := List.range 120
    attrs :=
      [("label_action_name", List.replicate 100 true ++ List.replicate 20 false),
       ("label_action_text", List.replicate 100 false ++ List.replicate 20 true)] }

/-- np.max over a nonempty list; none models the numpy error on empty input. -/
def npMax : List ℚ → Option ℚ
  | [] => none
  | x :: xs => some (xs.foldl max x)

/-- Error message of _pick_confidence for oversized batches. -/
def pickErrMsg : String :=
  "We cannot pick prediction from batches of size more than 2."

/-- _pick_confidence: arbitrate between the intent-based variant (row 0)
and the end-to-end variant (row 1) of one prediction.  Rows are
confidence and similarity vectors over the actions.  An error models the
raised ValueError (oversized batch) or a numpy failure on an empty axis
(the np.argmax calls used for debug logging and the np.max comparisons
both fail on an empty row). -/
def pickConfidence (confidences similarities : List (List ℚ))
    (e2eThreshold : ℚ) (onlyE2e : Bool) : Except String (List ℚ × Bool) :=
  if confidences.length > 2 then
    .error pickErrMsg
  else if confidences.length = 2 then
    match npMax (confidences.getD 0 []), npMax (confidences.getD 1 []),
      npMax (similarities.getD 1 []), npMax (similarities.getD 0 []) with
    | some _, some maxConf1, some maxSim1, some maxSim0 =>
      if maxConf1 > e2eThreshold ∧ maxSim1 > maxSim0 then
        .ok (confidences.getD 1 [], true)
      else
        .ok (confidences.getD 0 [], false)
    | _, _, _, _ => .error "zero-size array reduction"
  else
    match confidences with
    | [] => .error "index 0 is out of bounds"
    | c0 :: _ =>
      match npMax c0 with
      | none => .error "zero-size array reduction"
      | some _ => .ok (c0, onlyE2e)

end TedPolicy

namespace TedPolicy

/-- C1 counterexample input check helper: metadata computed on the
specification example with a total budget of 20. -/
def exampleMetadata : List (String × Nat × Nat) :=
  getLabelSamplingMetadata exampleLabelData 20

lemma maskSum_replicate_append (m n : Nat) :
    maskSum (List.replicate m true ++ List.replicate n false) = m := by
  simp [maskSum, List.filter_append, List.filter_replicate]

lemma maskSum_replicate_append' (m n : Nat) :
    maskSum (List.replicate m false ++ List.replicate n true) = n := by
  simp [maskSum, List.filter_append, List.filter_replicate]

lemma exampleMetadata_eq :
    exampleMetadata =
      [("label_action_name", 100, 16), ("label_action_text", 20, 3)] := by
  have h1 : maskSum (List.replicate 100 true ++ List.replicate 20 false) = 100 :=
    maskSum_replicate_append 100 20
  have h2 : maskSum (List.replicate 100 false ++ List.replicate 20 true) = 20 :=
    maskSum_replicate_append' 100 20
  simp only [exampleMetadata, getLabelSamplingMetadata, exampleLabelData,
    List.filterMap, h1, h2]
  norm_num [keyLabelBatchSize, pyInt]
  rfl

lemma pyInt_eq_floor {q : ℚ} (h : 0 ≤ q) : pyInt q = ⌊q⌋ := by
  simp [pyInt, not_lt.mpr h]

end TedPolicy

/-- C1: the claim states that each label-bearing attribute receives
round(candidates / total * budget) negatives (min 1), in particular 17
for action-name with 100 of 120 labels and budget 20.  The code instead
truncates with int(), so action-name receives 16, not 17, and the counts
sum to 19, not 20. -/
theorem c1_counterexample :
    TedPolicy.exampleMetadata =
      [("label_action_name", 100, 16), ("label_action_text", 20, 3)] ∧
      (TedPolicy.exampleMetadata.map (fun p => p.2.2)).sum = 19 := by
  refine ⟨TedPolicy.exampleMetadata_eq, ?_⟩
  rw [TedPolicy.exampleMetadata_eq]
  rfl

/-- C1 (amended): for a non-negative total budget, every label-bearing
attribute is assigned max 1 (floor(candidates / total * budget))
negatives, i.e. the proportional share truncated downward, with a
minimum of 1; on the specification example (100 action-name labels, 20
action-text labels, budget 20) this yields 16 and 3, summing to 19. -/
theorem c1_amended :
    (∀ (ld : TedPolicy.LabelData) (B : Int) (key : String) (n bs : Nat),
      (key, n, bs) ∈ TedPolicy.getLabelSamplingMetadata ld B → 0 ≤ B →
      bs = (max 1
        ⌊((n : ℚ) / (ld.labelIds.length : ℚ)) * (B : ℚ)⌋).toNat ∧ 1 ≤ bs) ∧
    TedPolicy.exampleMetadata =
      [("label_action_name", 100, 16), ("label_action_text", 20, 3)] ∧
    (TedPolicy.exampleMetadata.map (fun p => p.2.2)).sum = 19 := by
  refine ⟨?_, TedPolicy.exampleMetadata_eq, ?_⟩
  · intro ld B key n bs hmem hB
    simp only [TedPolicy.getLabelSamplingMetadata, List.mem_filterMap] at hmem
    obtain ⟨p, _, hp⟩ := hmem
    by_cases hlab : p.1 = "label"
    · simp [hlab] at hp
    · simp only [hlab, if_false, Option.some.injEq, Prod.mk.injEq] at hp
      obtain ⟨_, hn, hbs⟩ := hp
      have hBne : B ≠ -1 := by omega
      have hq : (0 : ℚ) ≤ ((n : ℚ) / (ld.labelIds.length : ℚ)) * (B : ℚ) := by
        apply mul_nonneg
        · positivity
        · exact_mod_cast hB
      constructor
      · rw [← hbs, TedPolicy.keyLabelBatchSize, if_neg hBne, hn,
          TedPolicy.pyInt_eq_floor hq]
      · rw [← hbs, TedPolicy.keyLabelBatchSize, if_neg hBne]
        have : (1 : Int) ≤ max 1 (TedPolicy.pyInt
            (((n : ℚ) / (ld.labelIds.length : ℚ)) * (B : ℚ))) :=
          le_max_left _ _
        omega
  · rw [TedPolicy.exampleMetadata_eq]
    rfl

/-- C1 amended-claim witness: the general clause applied to the
specification example at the action-name attribute. -/
theorem c1_amended_witness :
    (("label_action_name", 100, 16) ∈
        TedPolicy.getLabelSamplingMetadata TedPolicy.exampleLabelData 20 ∧
      (0 : Int) ≤ 20) ∧
    (16 = (max 1 ⌊((100 : ℚ) /
        ((TedPolicy.exampleLabelData.labelIds.length : ℚ))) * (20 : ℚ)⌋).toNat ∧
      1 ≤ 16) := by
  have hmem : ("label_action_name", 100, 16) ∈
      TedPolicy.getLabelSamplingMetadata TedPolicy.exampleLabelData 20 := by
    have := TedPolicy.exampleMetadata_eq
    rw [TedPolicy.exampleMetadata] at this
    rw [this]
    simp
  have hB : (0 : Int) ≤ 20 := by norm_num
  exact ⟨⟨hmem, hB⟩,
    c1_amended.1 TedPolicy.exampleLabelData 20 "label_action_name" 100 16
      hmem hB⟩


/-- C2: with a batch of two variants (intent-based first, end-to-end
second), _pick_confidence returns the end-to-end confidences with the
end-to-end flag set exactly when the end-to-end top confidence strictly
exceeds the configured threshold and its top similarity strictly exceeds
the intent-based top similarity; in every other case (equality included)
it returns the intent-based confidences with the flag false. -/
theorem c2_router (c0 c1 s0 s1 : List ℚ) (thr : ℚ) (e : Bool)
    (m0 m1 t1 t0 : ℚ)
    (h0 : TedPolicy.npMax c0 = some m0) (h1 : TedPolicy.npMax c1 = some m1)
    (h2 : TedPolicy.npMax s1 = some t1) (h3 : TedPolicy.npMax s0 = some t0) :
    (TedPolicy.pickConfidence [c0, c1] [s0, s1] thr e = .ok (c1, true) ↔
      (m1 > thr ∧ t1 > t0)) ∧
    (¬(m1 > thr ∧ t1 > t0) →
      TedPolicy.pickConfidence [c0, c1] [s0, s1] thr e = .ok (c0, false)) := by
  have hres : TedPolicy.pickConfidence [c0, c1] [s0, s1] thr e =
      if m1 > thr ∧ t1 > t0 then .ok (c1, true) else .ok (c0, false) := by
    simp [TedPolicy.pickConfidence, h0, h1, h2, h3]
  constructor
  · rw [hres]
    by_cases hcond : m1 > thr ∧ t1 > t0
    · simp [hcond]
    · simp [hcond]
  · intro hcond
    rw [hres, if_neg hcond]

/-- C2 witness: specification scenario C, with an end-to-end top
confidence of 3/10 below the threshold 1/2, the intent-based result is
selected even though its top similarity 3/5 is below the end-to-end top
similarity 4/5. -/
theorem c2_router_witness :
    TedPolicy.pickConfidence [[1/2], [3/10]] [[3/5], [4/5]] (1/2) false =
      .ok ([(1/2 : ℚ)], false) := by
  have h := c2_router [(1/2 : ℚ)] [(3/10 : ℚ)] [(3/5 : ℚ)] [(4/5 : ℚ)]
    (1/2) false (1/2) (3/10) (4/5) (3/5) rfl rfl rfl rfl
  exact h.2 (by norm_num)

/-- C9: a confidence batch with more than two rows makes _pick_confidence
fail with the descriptive oversized-batch error, while batches of one or
two rows (with a nonempty action axis) never produce an error. -/
theorem c9_batch_size (conf sim : List (List ℚ)) (thr : ℚ) (e : Bool) :
    (conf.length > 2 →
      TedPolicy.pickConfidence conf sim thr e = .error TedPolicy.pickErrMsg) ∧
    ((conf.length = 1 ∨ conf.length = 2) →
      (∀ row ∈ conf, row ≠ []) → (∀ row ∈ sim, row ≠ []) →
      sim.length = conf.length →
      ∃ r, TedPolicy.pickConfidence conf sim thr e = .ok r) := by
  constructor
  · intro hgt
    simp [TedPolicy.pickConfidence, hgt]
  · intro hlen hconf hsim hsimlen
    have npMax_ne : ∀ (row : List ℚ), row ≠ [] →
        ∃ m, TedPolicy.npMax row = some m := by
      intro row hrow
      cases row with
      | nil => exact absurd rfl hrow
      | cons x xs => exact ⟨xs.foldl max x, rfl⟩
    rcases hlen with hlen | hlen
    · match conf, hlen with
      | [c0], _ =>
        obtain ⟨m0, hm0⟩ := npMax_ne c0 (hconf c0 (by simp))
        refine ⟨(c0, e), ?_⟩
        simp [TedPolicy.pickConfidence, hm0]
    · match conf, hlen with
      | [c0, c1], _ =>
        match sim, hsimlen with
        | [s0, s1], _ =>
          obtain ⟨m0, hm0⟩ := npMax_ne c0 (hconf c0 (by simp))
          obtain ⟨m1, hm1⟩ := npMax_ne c1 (hconf c1 (by simp))
          obtain ⟨t0, ht0⟩ := npMax_ne s0 (hsim s0 (by simp))
          obtain ⟨t1, ht1⟩ := npMax_ne s1 (hsim s1 (by simp))
          by_cases hcond : m1 > thr ∧ t1 > t0
          · refine ⟨(c1, true), ?_⟩
            simp [TedPolicy.pickConfidence, hm0, hm1, ht0, ht1, hcond]
          · refine ⟨(c0, false), ?_⟩
            simp [TedPolicy.pickConfidence, hm0, hm1, ht0, ht1, hcond]

/-- C9 witness: a batch of three rows errors out, and concrete batches of
sizes one and two succeed. -/
theorem c9_batch_size_witness :
    TedPolicy.pickConfidence [[1], [1], [1]] [[1], [1], [1]] (1/2) false =
      .error TedPolicy.pickErrMsg ∧
    (∃ r, TedPolicy.pickConfidence [[1]] [[1]] (1/2) false = .ok r) ∧
    (∃ r, TedPolicy.pickConfidence [[1], [2]] [[3], [4]] (1/2) false = .ok r) := by
  refine ⟨(c9_batch_size [[1], [1], [1]] [[1], [1], [1]] (1/2) false).1
      (by norm_num), ?_, ?_⟩
  · exact (c9_batch_size [[1]] [[1]] (1/2) false).2 (Or.inl rfl)
      (by intro row hrow; simp at hrow; simp [hrow])
      (by intro row hrow; simp at hrow; simp [hrow]) rfl
  · exact (c9_batch_size [[1], [2]] [[3], [4]] (1/2) false).2 (Or.inr rfl)
      (by intro row hrow; simp at hrow; rcases hrow with h | h <;> simp [h])
      (by intro row hrow; simp at hrow; rcases hrow with h | h <;> simp [h]) rfl

namespace TedPolicy

/-- Dictionary lookup of the mask stored for a key in the label data. -/
def lookupMask : List (String × List Bool) → String → List Bool
  | [], _ => []
  | p :: ps, key => if p.1 = key then p.2 else lookupMask ps key

/-- calculate_key_ids: boolean-mask the flat label id array with the
pre-computed mask of the given key. -/
def calculateKeyIds (ld : LabelData) (key : String) : List Nat :=
  booleanMask ld.labelIds (lookupMask ld.attrs key)

/-- Documented contract of tf.random.uniform_candidate_sampler with
unique=True: it draws num_sampled pairwise distinct indices below
range_max. -/
def SamplerOk (indices : List Nat) (numSampled rangeMax : Nat) : Prop :=
  indices.length = numSampled ∧ indices.Nodup ∧ ∀ i ∈ indices, i < rangeMax

/-- _sample_unique_label_ids: gather the label ids of the key at the
indices drawn by the candidate sampler. -/
def sampleUniqueLabelIds (indices : List Nat) (keyIds : List Nat) : List Nat :=
  indices.map (fun i => keyIds.getD i 0)

/-- Error message of _sample_negative_label_ids when the configured
budget exceeds the total number of unique label ids. -/
def sampleErrMsg : String :=
  "label_batch_size is greater that total number of unique label ids."

/-- _sample_negative_label_ids: first check the configured total budget
against the total number of label ids and fail with a configuration
error if it is larger; only then sample per label-bearing key and
concatenate.  draws maps each key to the indices its candidate-sampler
call produced. -/
def sampleNegativeLabelIds (ld : LabelData) (labelBatchSize : Int)
    (draws : String → List Nat) : Except String (List Nat) :=
  if labelBatchSize > (ld.labelIds.length : Int) then .error sampleErrMsg
  else .ok ((ld.attrs.filterMap (fun p =>
    if p.1 = "label" then none
    else some (sampleUniqueLabelIds (draws p.1) (calculateKeyIds ld p.1)))).flatten)

/-- batch_loss, restricted to its negative-sampling prefix: everything
computed after the sampling (label embeddings, similarity loss) is
abstracted by rest and can only run if sampling succeeded. -/
def batchLossSampling (ld : LabelData) (labelBatchSize : Int)
    (draws : String → List Nat) (rest : List Nat → ℚ) : Except String ℚ :=
  (sampleNegativeLabelIds ld labelBatchSize draws).map rest

lemma lookupMask_eq {attrs : List (String × List Bool)}
    {p : String × List Bool} (hnodup : (attrs.map Prod.fst).Nodup)
    (hp : p ∈ attrs) : lookupMask attrs p.1 = p.2 := by
  induction attrs with
  | nil => cases hp
  | cons q qs ih =>
    rcases List.mem_cons.mp hp with h | h
    · subst h
      simp [lookupMask]
    · have hne : q.1 ≠ p.1 := by
        intro heq
        have : p.1 ∈ qs.map Prod.fst := List.mem_map_of_mem Prod.fst h
        rw [← heq] at this
        exact (List.nodup_cons.mp hnodup).1 this
      simp only [lookupMask, if_neg (fun h2 => hne h2)]
      exact ih (List.nodup_cons.mp hnodup).2 h

lemma booleanMask_length {xs : List Nat} {bs : List Bool}
    (h : bs.length = xs.length) : (booleanMask xs bs).length = maskSum bs := by
  induction xs generalizing bs with
  | nil =>
    cases bs with
    | nil => rfl
    | cons b bs => simp at h
  | cons x xs ih =>
    cases bs with
    | nil => simp at h
    | cons b bs =>
      simp only [List.length_cons, Nat.succ.injEq] at h
      cases b with
      | true => simp [booleanMask, maskSum, List.zip_cons_cons,
          List.filterMap] at ih ⊢; exact ih h
      | false => simp [booleanMask, maskSum, List.zip_cons_cons,
          List.filterMap] at ih ⊢; exact ih h

lemma booleanMask_sublist {α : Type} (xs : List α) (bs : List Bool) :
    (booleanMask xs bs).Sublist xs := by
  induction xs generalizing bs with
  | nil => simp [booleanMask]
  | cons x xs ih =>
    cases bs with
    | nil => simp [booleanMask]
    | cons b bs =>
      cases b with
      | true =>
        simpa [booleanMask, List.zip_cons_cons] using (ih bs).cons₂ x
      | false =>
        simpa [booleanMask, List.zip_cons_cons] using (ih bs).cons x

end TedPolicy

/-- C3: if the negative-sample count requested for an attribute by the
sampling metadata exceeds that attribute's candidate count (which has to
be positive), then the total budget necessarily exceeds the total number
of label ids, and batch_loss fails with the descriptive configuration
error of _sample_negative_label_ids before any sampling or loss
computation runs (the conclusion holds for every sampler draw and every
downstream loss computation), so training is blocked. -/
theorem c3_oversized_budget (ld : TedPolicy.LabelData) (B : Int)
    (key : String) (n bs : Nat) (hwf : ld.WellFormed)
    (hmem : (key, n, bs) ∈ TedPolicy.getLabelSamplingMetadata ld B)
    (hn : 1 ≤ n) (hgt : n < bs) :
    ∀ (draws : String → List Nat) (rest : List Nat → ℚ),
      TedPolicy.batchLossSampling ld B draws rest =
        .error TedPolicy.sampleErrMsg := by
  intro draws rest
  -- unpack the metadata entry
  simp only [TedPolicy.getLabelSamplingMetadata, List.mem_filterMap] at hmem
  obtain ⟨p, hpmem, hp⟩ := hmem
  by_cases hlab : p.1 = "label"
  · simp [hlab] at hp
  simp only [hlab, if_false, Option.some.injEq, Prod.mk.injEq] at hp
  obtain ⟨-, hpn, hpbs⟩ := hp
  set N := ld.labelIds.length with hN
  have hnN : n ≤ N := by
    rw [← hpn]
    calc TedPolicy.maskSum p.2 ≤ p.2.length := List.length_filter_le _ _
    _ = N := (hwf.1 p hpmem).1
  have hNpos : 0 < N := lt_of_lt_of_le hn hnN
  -- the oversized per-attribute request forces an oversized total budget
  have hBN : (N : Int) < B := by
    by_cases hB1 : B = -1
    · rw [← hpbs, TedPolicy.keyLabelBatchSize, if_pos hB1, hpn] at hgt
      omega
    · rw [← hpbs, TedPolicy.keyLabelBatchSize, if_neg hB1, hpn] at hgt
      set q : ℚ := ((n : ℚ) / (N : ℚ)) * (B : ℚ) with hq
      have hpy2 : 1 ≤ TedPolicy.pyInt q := by
        by_contra hlt
        push_neg at hlt
        have : (max 1 (TedPolicy.pyInt q)) = 1 := by omega
        rw [this] at hgt
        omega
      have hq0 : (0 : ℚ) ≤ q := by
        by_contra hq0
        push_neg at hq0
        have : TedPolicy.pyInt q ≤ 0 := by
          rw [TedPolicy.pyInt, if_pos hq0]
          exact Int.ceil_le.mpr (by exact_mod_cast le_of_lt hq0)
        omega
      rw [TedPolicy.pyInt_eq_floor hq0] at hpy2 hgt
      have hfloor : (n : Int) < ⌊q⌋ := by omega
      have hqn : (n : ℚ) < q := by
        calc (n : ℚ) < (⌊q⌋ : ℚ) := by exact_mod_cast hfloor
        _ ≤ q := Int.floor_le q
      have hNq : (0 : ℚ) < (N : ℚ) := by exact_mod_cast hNpos
      have hmul : (n : ℚ) * (N : ℚ) < (n : ℚ) * (B : ℚ) := by
        have := (lt_div_iff₀ hNq).mp (by
          rw [hq, div_mul_eq_mul_div] at hqn
          exact hqn)
        linarith
      have hnQ : (0 : ℚ) < (n : ℚ) := by exact_mod_cast hn
      have : (N : ℚ) < (B : ℚ) := lt_of_mul_lt_mul_left hmul (le_of_lt hnQ)
      exact_mod_cast this
  simp only [TedPolicy.batchLossSampling, TedPolicy.sampleNegativeLabelIds,
    if_pos hBN, Except.map]

/-- C3 witness: two label ids, one action-name candidate, total budget 5;
the metadata requests 2 negatives for one candidate and batch_loss fails
with the configuration error for every draw and loss computation. -/
theorem c3_oversized_budget_witness :
    (TedPolicy.LabelData.WellFormed
      ⟨[0, 1], [("label_action_name", [true, false])]⟩ ∧
    ("label_action_name", 1, 2) ∈ TedPolicy.getLabelSamplingMetadata
      ⟨[0, 1], [("label_action_name", [true, false])]⟩ 5 ∧
    1 ≤ 1 ∧ 1 < 2) ∧
    TedPolicy.batchLossSampling
      ⟨[0, 1], [("label_action_name", [true, false])]⟩ 5
      (fun _ => []) (fun _ => 0) = .error TedPolicy.sampleErrMsg := by
  have hwf : TedPolicy.LabelData.WellFormed
      ⟨[0, 1], [("label_action_name", [true, false])]⟩ := by
    constructor
    · intro p hp
      simp at hp
      simp [hp]
    · simp
  have hmem : ("label_action_name", 1, 2) ∈ TedPolicy.getLabelSamplingMetadata
      ⟨[0, 1], [("label_action_name", [true, false])]⟩ 5 := by
    simp only [TedPolicy.getLabelSamplingMetadata]
    norm_num [TedPolicy.maskSum, TedPolicy.keyLabelBatchSize, TedPolicy.pyInt]
    exact ⟨by decide, rfl⟩
  exact ⟨⟨hwf, hmem, le_refl 1, by omega⟩,
    c3_oversized_budget _ 5 "label_action_name" 1 2 hwf hmem (le_refl 1)
      (by omega) (fun _ => []) (fun _ => 0)⟩

/-- C4: under the documented candidate-sampler contract, the negative
ids sampled for a label-bearing attribute all come from the ids whose
mask for that attribute is set (hence from the label space), number at
most the per-attribute budget recorded in the sampling metadata, and are
pairwise distinct within the sampling call. -/
theorem c4_sampling (ld : TedPolicy.LabelData) (B : Int) (key : String)
    (n bs : Nat) (indices : List Nat) (hwf : ld.WellFormed)
    (hnodup : ld.labelIds.Nodup)
    (hmem : (key, n, bs) ∈ TedPolicy.getLabelSamplingMetadata ld B)
    (hs : TedPolicy.SamplerOk indices bs n) :
    (∀ x ∈ TedPolicy.sampleUniqueLabelIds indices
        (TedPolicy.calculateKeyIds ld key),
      x ∈ TedPolicy.calculateKeyIds ld key ∧ x ∈ ld.labelIds) ∧
    (TedPolicy.sampleUniqueLabelIds indices
      (TedPolicy.calculateKeyIds ld key)).length ≤ bs ∧
    (TedPolicy.sampleUniqueLabelIds indices
      (TedPolicy.calculateKeyIds ld key)).Nodup := by
  obtain ⟨hlen, hnd, hbound⟩ := hs
  -- the metadata candidate count is the length of the key id list
  simp only [TedPolicy.getLabelSamplingMetadata, List.mem_filterMap] at hmem
  obtain ⟨p, hpmem, hp⟩ := hmem
  by_cases hlab : p.1 = "label"
  · simp [hlab] at hp
  simp only [hlab, if_false, Option.some.injEq, Prod.mk.injEq] at hp
  obtain ⟨hpkey, hpn, -⟩ := hp
  have hmask : TedPolicy.lookupMask ld.attrs key = p.2 := by
    rw [← hpkey]
    exact TedPolicy.lookupMask_eq hwf.2 hpmem
  have hkeylen : (TedPolicy.calculateKeyIds ld key).length = n := by
    rw [TedPolicy.calculateKeyIds, hmask,
      TedPolicy.booleanMask_length (hwf.1 p hpmem).1, hpn]
  set keyIds := TedPolicy.calculateKeyIds ld key with hkeyIds
  have hkeysub : keyIds.Sublist ld.labelIds := by
    rw [hkeyIds, TedPolicy.calculateKeyIds, hmask]
    exact TedPolicy.booleanMask_sublist _ _
  have hkeynd : keyIds.Nodup := hnodup.sublist hkeysub
  have hib : ∀ i ∈ indices, i < keyIds.length := by
    intro i hi
    rw [hkeylen]
    exact hbound i hi
  refine ⟨?_, ?_, ?_⟩
  · intro x hx
    simp only [TedPolicy.sampleUniqueLabelIds, List.mem_map] at hx
    obtain ⟨i, hi, hxi⟩ := hx
    have hilt := hib i hi
    have hxmem : x ∈ keyIds := by
      rw [← hxi, List.getD_eq_getElem _ _ hilt]
      exact List.getElem_mem hilt
    exact ⟨hxmem, hkeysub.subset hxmem⟩
  · rw [TedPolicy.sampleUniqueLabelIds, List.length_map, hlen]
  · apply hnd.map_on
    intro i hi j hj hij
    have hilt := hib i hi
    have hjlt := hib j hj
    rw [List.getD_eq_getElem _ _ hilt, List.getD_eq_getElem _ _ hjlt] at hij
    have hget : keyIds.get ⟨i, hilt⟩ = keyIds.get ⟨j, hjlt⟩ := by
      simpa using hij
    have := List.nodup_iff_injective_get.mp hkeynd hget
    exact congrArg Fin.val this

/-- C4 witness: two label ids both carrying action-name, budget 1; the
sampler draw selecting index 1 yields the single id 1, within budget,
from the key id list, and without repetition. -/
theorem c4_sampling_witness :
    (TedPolicy.LabelData.WellFormed
        ⟨[0, 1], [("label_action_name", [true, true])]⟩ ∧
      ([0, 1] : List Nat).Nodup ∧
      ("label_action_name", 2, 1) ∈ TedPolicy.getLabelSamplingMetadata
        ⟨[0, 1], [("label_action_name", [true, true])]⟩ 1 ∧
      TedPolicy.SamplerOk [1] 1 2) ∧
    ((∀ x ∈ TedPolicy.sampleUniqueLabelIds [1]
        (TedPolicy.calculateKeyIds
          ⟨[0, 1], [("label_action_name", [true, true])]⟩ "label_action_name"),
      x ∈ TedPolicy.calculateKeyIds
          ⟨[0, 1], [("label_action_name", [true, true])]⟩ "label_action_name" ∧
        x ∈ ([0, 1] : List Nat)) ∧
    (TedPolicy.sampleUniqueLabelIds [1]
      (TedPolicy.calculateKeyIds
        ⟨[0, 1], [("label_action_name", [true, true])]⟩
        "label_action_name")).length ≤ 1 ∧
    (TedPolicy.sampleUniqueLabelIds [1]
      (TedPolicy.calculateKeyIds
        ⟨[0, 1], [("label_action_name", [true, true])]⟩
        "label_action_name")).Nodup) := by
  have hwf : TedPolicy.LabelData.WellFormed
      ⟨[0, 1], [("label_action_name", [true, true])]⟩ := by
    constructor
    · intro p hp
      simp at hp
      simp [hp]
    · simp
  have hnodup : ([0, 1] : List Nat).Nodup := by simp
  have hmem : ("label_action_name", 2, 1) ∈ TedPolicy.getLabelSamplingMetadata
      ⟨[0, 1], [("label_action_name", [true, true])]⟩ 1 := by
    simp only [TedPolicy.getLabelSamplingMetadata]
    norm_num [TedPolicy.maskSum, TedPolicy.keyLabelBatchSize, TedPolicy.pyInt]
    decide
  have hs : TedPolicy.SamplerOk [1] 1 2 := by
    refine ⟨rfl, by simp, ?_⟩
    intro i hi
    simp at hi
    omega
  exact ⟨⟨hwf, hnodup, hmem, hs⟩,
    c4_sampling ⟨[0, 1], [("label_action_name", [true, true])]⟩ 1
      "label_action_name" 2 1 [1] hwf hnodup hmem hs⟩

namespace TedPolicy

/-- _create_label_embeddings_for_training: concatenate negative and
positive label ids, reduce them to a unique and ascending-sorted id set
(tf.unique followed by tf.sort; tf.unique keeps first occurrences, and
since the result is sorted immediately the first-kept and last-kept
dedup orders denote the same list), and compute the embedding once per
unique id. -/
def createLabelEmbeddingsForTraining {E : Type} (embed : Nat → E)
    (negativeLabelIds positiveLabelIds : List Nat) : List Nat × List E :=
  let concatenatedIds := negativeLabelIds ++ positiveLabelIds
  let allUniqueLabelIds := (concatenatedIds.dedup).insertionSort (· ≤ ·)
  (allUniqueLabelIds, allUniqueLabelIds.map embed)

/-- _get_labels_embed: for every selection id, find the index at which
all_label_ids equals it (tf.where over the equality matrix; unique ids
make the match unique and indexOf picks it) and gather the embedding at
that index. -/
def getLabelsEmbed {E : Type} (z : E) (selectionIds allLabelIds : List Nat)
    (allLabelsEmbed : List E) : List E :=
  selectionIds.map (fun s => allLabelsEmbed.getD (allLabelIds.indexOf s) z)

lemma getLabelsEmbed_map {E : Type} (z : E) (embed : Nat → E)
    (selectionIds u : List Nat) (hsub : ∀ s ∈ selectionIds, s ∈ u) :
    getLabelsEmbed z selectionIds u (u.map embed) = selectionIds.map embed := by
  rw [getLabelsEmbed]
  apply List.map_congr_left
  intro s hs
  have hlt : u.indexOf s < u.length := List.indexOf_lt_length.mpr (hsub s hs)
  have hlt' : u.indexOf s < (u.map embed).length := by
    rw [List.length_map]
    exact hlt
  rw [List.getD_eq_getElem _ _ hlt', List.getElem_map]
  congr 1
  exact List.getElem_indexOf hlt

end TedPolicy

/-- C5: the union of sampled negative ids and batch positive ids is
deduplicated and sorted ascending, one embedding is computed per unique
id (the embedding list is in bijection with the unique id list), and
gathering by id lookup recovers, for every positive and every negative
slot, the one embedding computed for that id, so the same id receives an
identical embedding whether it appears as a positive or as a negative. -/
theorem c5_label_embeddings {E : Type} (z : E) (embed : Nat → E)
    (negativeLabelIds positiveLabelIds : List Nat) :
    (TedPolicy.createLabelEmbeddingsForTraining embed
        negativeLabelIds positiveLabelIds).1.Sorted (· ≤ ·) ∧
    (TedPolicy.createLabelEmbeddingsForTraining embed
        negativeLabelIds positiveLabelIds).1.Nodup ∧
    (∀ x, x ∈ (TedPolicy.createLabelEmbeddingsForTraining embed
        negativeLabelIds positiveLabelIds).1 ↔
      (x ∈ negativeLabelIds ∨ x ∈ positiveLabelIds)) ∧
    (TedPolicy.createLabelEmbeddingsForTraining embed
        negativeLabelIds positiveLabelIds).2.length =
      (TedPolicy.createLabelEmbeddingsForTraining embed
        negativeLabelIds positiveLabelIds).1.length ∧
    TedPolicy.getLabelsEmbed z positiveLabelIds
      (TedPolicy.createLabelEmbeddingsForTraining embed
        negativeLabelIds positiveLabelIds).1
      (TedPolicy.createLabelEmbeddingsForTraining embed
        negativeLabelIds positiveLabelIds).2 =
      positiveLabelIds.map embed ∧
    TedPolicy.getLabelsEmbed z negativeLabelIds
      (TedPolicy.createLabelEmbeddingsForTraining embed
        negativeLabelIds positiveLabelIds).1
      (TedPolicy.createLabelEmbeddingsForTraining embed
        negativeLabelIds positiveLabelIds).2 =
      negativeLabelIds.map embed := by
  set u := (TedPolicy.createLabelEmbeddingsForTraining embed
    negativeLabelIds positiveLabelIds).1 with hu
  have huval : u =
      ((negativeLabelIds ++ positiveLabelIds).dedup).insertionSort (· ≤ ·) := rfl
  have hperm : u.Perm (negativeLabelIds ++ positiveLabelIds).dedup := by
    rw [huval]
    exact List.perm_insertionSort _ _
  have hmem : ∀ x, x ∈ u ↔ (x ∈ negativeLabelIds ∨ x ∈ positiveLabelIds) := by
    intro x
    rw [hperm.mem_iff, List.mem_dedup, List.mem_append]
  have hsnd : (TedPolicy.createLabelEmbeddingsForTraining embed
      negativeLabelIds positiveLabelIds).2 = u.map embed := rfl
  refine ⟨?_, ?_, hmem, ?_, ?_, ?_⟩
  · rw [huval]
    exact List.sorted_insertionSort _ _
  · exact hperm.nodup_iff.mpr (List.nodup_dedup _)
  · rw [hsnd, List.length_map]
  · rw [hsnd]
    exact TedPolicy.getLabelsEmbed_map z embed positiveLabelIds u
      (fun s hs => (hmem s).mpr (Or.inr hs))
  · rw [hsnd]
    exact TedPolicy.getLabelsEmbed_map z embed negativeLabelIds u
      (fun s hs => (hmem s).mpr (Or.inl hs))

namespace TedPolicy

/-- Zero vector of the given width. -/
def zeroVec (u : Nat) : List ℚ := List.replicate u 0

/-- tf.zeros((b, d, u)). -/
def zeros3 (b d u : Nat) : List (List (List ℚ)) :=
  List.replicate b (List.replicate d (zeroVec u))

/-- Outputs of one attribute encoder: the per-turn attribute features
and, for the text attribute only, the token-level transformer output and
its sequence lengths (empty tensors otherwise). -/
structure EncodedAttribute where
  attributeFeatures : List (List (List ℚ))
  textOutput : List (List (List ℚ))
  textSequenceLengths : List Nat

/-- _encode_fake_features_per_attribute: an all-zero features tensor of
shape (batch, dialogue-length, units) where batch and dialogue-length
are read off the attribute mask, plus empty text output and sequence
lengths (tf.zeros with a leading 0 dimension is the empty list; the
trailing dimensions of the empty text tensors are phantom here). -/
def encodeFakeFeaturesPerAttribute (mask : List (List Bool)) (units : Nat) :
    EncodedAttribute :=
  let batchDim := mask.length
  let dialogueDim := (mask.headD []).length
  { attributeFeatures := zeros3 batchDim dialogueDim units
    textOutput := []
    textSequenceLengths := [] }

/-- _encode_features_per_attribute: tf.cond on whether the batch holds
any real sentence feature rows for the attribute; the real encoder runs
only in the positive branch. -/
def encodeFeaturesPerAttribute (numRealSentenceRows : Nat)
    (real : Unit → EncodedAttribute) (mask : List (List Bool))
    (units : Nat) : EncodedAttribute :=
  if numRealSentenceRows > 0 then real () else
    encodeFakeFeaturesPerAttribute mask units

/-- _batch_loss_entities: tf.cond on an empty text output; the real
entity loss runs only when real text rows exist, else the constant 0. -/
def batchLossEntities (realLoss : List (List (List ℚ)) → ℚ)
    (textOutput : List (List (List ℚ))) : ℚ :=
  if textOutput.length > 0 then realLoss textOutput else 0

/-- _batch_predict_entities: tf.cond on an empty text output; when no
real text rows exist, return all-zero tag ids and confidences of shape
tf.shape(text_output)[:2]. -/
def batchPredictEntities
    (realPred : List (List (List ℚ)) → List (List Nat) × List (List ℚ))
    (textOutput : List (List (List ℚ))) :
    List (List Nat) × List (List ℚ) :=
  if textOutput.length > 0 then realPred textOutput
  else
    (List.replicate textOutput.length
        (List.replicate (textOutput.headD []).length 0),
      List.replicate textOutput.length
        (List.replicate (textOutput.headD []).length 0))

end TedPolicy

/-- C6: a batch with zero real text rows routes the text attribute
through the fake encoder, whose text output placeholder is empty; the
entity loss is then exactly 0 without invoking the sequence model, and
the predicted tag ids and confidences are the all-zero tensors of the
placeholder shape, for every real encoder, loss and decoder. -/
theorem c6_degenerate_entities (real : Unit → TedPolicy.EncodedAttribute)
    (realLoss : List (List (List ℚ)) → ℚ)
    (realPred : List (List (List ℚ)) → List (List Nat) × List (List ℚ))
    (mask : List (List Bool)) (units : Nat) (numRealSentenceRows : Nat)
    (h : numRealSentenceRows = 0) :
    (TedPolicy.encodeFeaturesPerAttribute numRealSentenceRows real mask
      units).textOutput = [] ∧
    TedPolicy.batchLossEntities realLoss
      (TedPolicy.encodeFeaturesPerAttribute numRealSentenceRows real mask
        units).textOutput = 0 ∧
    TedPolicy.batchPredictEntities realPred
      (TedPolicy.encodeFeaturesPerAttribute numRealSentenceRows real mask
        units).textOutput = ([], []) := by
  subst h
  refine ⟨rfl, ?_, ?_⟩
  · rfl
  · rfl

/-- C6 witness: the degenerate-batch behaviour at a concrete batch, with
a real loss and decoder that would return nonzero values if invoked. -/
theorem c6_degenerate_entities_witness :
    (0 : Nat) = 0 ∧
    (TedPolicy.encodeFeaturesPerAttribute 0
      (fun _ => ⟨[], [[[5]]], [3]⟩) [[true]] 2).textOutput = [] ∧
    TedPolicy.batchLossEntities (fun _ => 7)
      (TedPolicy.encodeFeaturesPerAttribute 0
        (fun _ => ⟨[], [[[5]]], [3]⟩) [[true]] 2).textOutput = 0 ∧
    TedPolicy.batchPredictEntities (fun _ => ([[9]], [[8]]))
      (TedPolicy.encodeFeaturesPerAttribute 0
        (fun _ => ⟨[], [[[5]]], [3]⟩) [[true]] 2).textOutput = ([], []) := by
  exact ⟨rfl, c6_degenerate_entities (fun _ => ⟨[], [[[5]]], [3]⟩)
    (fun _ => 7) (fun _ => ([[9]], [[8]])) [[true]] 2 0 rfl⟩

namespace TedPolicy

/-- Slicing loop of prepare_for_predict: take label_batch_size ids at a
time (the code only reaches this loop with a positive batch size). -/
def chunksOf {α : Type} : Nat → List α → List (List α)
  | _, [] => []
  | 0, _ :: _ => []
  | n + 1, x :: xs =>
    (x :: xs).take (n + 1) :: chunksOf (n + 1) ((x :: xs).drop (n + 1))
termination_by _ l => l.length
decreasing_by simp [List.length_drop]; omega

/-- prepare_for_predict: compute the embedding of every label id, either
at once (label_batch_size == -1) or in batched chunks that are then
concatenated, and store it in the all_labels_embed cache. -/
def prepareForPredict {E : Type} (computeEmbed : List Nat → List E)
    (allLabelIds : List Nat) (labelBatchSize : Int) : Option (List E) :=
  if labelBatchSize = -1 then some (computeEmbed allLabelIds)
  else some (((chunksOf labelBatchSize.toNat allLabelIds).map
    computeEmbed).flatten)

/-- Error message of batch_predict when the cache was never prepared. -/
def predictErrMsg : String :=
  "The model was not prepared for prediction. Call prepare_for_predict first."

/-- batch_predict: fail if the all_labels_embed cache is unset, else run
the prediction computation on the cached embedding. -/
def batchPredict {E O : Type} (allLabelsEmbed : Option (List E))
    (run : List E → O) : Except String O :=
  match allLabelsEmbed with
  | none => .error predictErrMsg
  | some e => .ok (run e)

end TedPolicy

/-- C10: calling batch_predict while the all-label embedding cache is
unset fails with the descriptive ValueError for every prediction
computation (so nothing is computed), while prepare_for_predict always
sets the cache, after which batch_predict succeeds on it. -/
theorem c10_prepare_before_predict :
    (∀ (O : Type) (run : List Nat → O),
      TedPolicy.batchPredict none run = .error TedPolicy.predictErrMsg) ∧
    (∀ (E : Type) (computeEmbed : List Nat → List E)
      (allLabelIds : List Nat) (labelBatchSize : Int),
      ∃ out, TedPolicy.prepareForPredict computeEmbed allLabelIds
          labelBatchSize = some out ∧
        ∀ (O : Type) (run : List E → O),
          TedPolicy.batchPredict
            (TedPolicy.prepareForPredict computeEmbed allLabelIds
              labelBatchSize) run = .ok (run out)) := by
  constructor
  · intro O run
    rfl
  · intro E computeEmbed allLabelIds labelBatchSize
    rw [TedPolicy.prepareForPredict]
    by_cases h : labelBatchSize = -1
    · exact ⟨computeEmbed allLabelIds, by rw [if_pos h], fun O run => by
        rw [if_pos h, TedPolicy.batchPredict]⟩
    · exact ⟨((TedPolicy.chunksOf labelBatchSize.toNat allLabelIds).map
        computeEmbed).flatten, by rw [if_neg h], fun O run => by
        rw [if_neg h, TedPolicy.batchPredict]⟩

namespace TedPolicy

/-- Directionality of the dialogue transformer as configured in
_prepare_layers: unidirectional exactly when the max-history featurizer
is not used (the truncated-window mode gets a bidirectional
transformer). -/
def dialogueTransformerUnidirectional (maxHistoryFeaturizerIsUsed : Bool) :
    Bool :=
  !maxHistoryFeaturizerIsUsed

/-- tf.reverse_sequence along the turn axis: reverse the first
lengths[i] turns of dialogue i and leave the padding positions where
they are. -/
def reverseSequence {V : Type} (xs : List (List V)) (lengths : List Nat) :
    List (List V) :=
  List.zipWith (fun row l => (row.take l).reverse ++ row.drop l) xs lengths

/-- Modelled from the spec: _last_token lives in the external model base
class (rasa.utils.tensorflow.models, not part of this file); per the
spec it retains, for each example, the output of the last valid turn,
i.e. the entry at index length - 1. -/
def lastToken {V : Type} (z : V) (xs : List V) (l : Nat) : V :=
  xs.getD (l - 1) z

/-- rasa_layers.compute_mask: per example, ones over the true dialogue
length, zeros on the padding up to the padded dialogue dimension. -/
def computeMask (lengths : List Nat) (d : Nat) : List (List Bool) :=
  lengths.map (fun l => List.replicate l true ++ List.replicate (d - l) false)

/-- Outputs of _embed_dialogue: the embedded dialogue, the (possibly
reduced) validity mask and the retained transformer output. -/
structure EmbedDialogueOut (V : Type) where
  dialogueEmbed : List (List V)
  mask : List (List Bool)
  dialogueTransformed : List (List V)

/-- _embed_dialogue: reverse the turn order by true length in truncated
(max-history) mode, run the dialogue transformer and gelu, then retain
only position 0 (the true last turn of the reversed order) in truncated
mode, only the last valid turn during full-history inference, and the
full per-turn sequence during full-history training; finally apply the
embedding layer. -/
def embedDialogue {V : Type} (z : V)
    (transformer : List (List V) → List (List V)) (gelu embedLayer : V → V)
    (maxHistoryFeaturizerIsUsed training : Bool)
    (dialogueIn : List (List V)) (dialogueLengths : List Nat) (d : Nat) :
    EmbedDialogueOut V :=
  let mask := computeMask dialogueLengths d
  let input := if maxHistoryFeaturizerIsUsed then
    reverseSequence dialogueIn dialogueLengths else dialogueIn
  let transformed := (transformer input).map (List.map gelu)
  let retained := if maxHistoryFeaturizerIsUsed then
      transformed.map (fun row => row.take 1)
    else if training then transformed
    else List.zipWith (fun row l => [lastToken z row l]) transformed
      dialogueLengths
  let maskOut := if maxHistoryFeaturizerIsUsed ∨ ¬training then
      List.zipWith (fun row l => [lastToken false row l]) mask dialogueLengths
    else mask
  { dialogueEmbed := retained.map (List.map embedLayer)
    mask := maskOut
    dialogueTransformed := retained }

lemma reverseSequence_head {V : Type} (z : V) (row : List V) (l : Nat)
    (h1 : 1 ≤ l) (h2 : l ≤ row.length) :
    ((row.take l).reverse ++ row.drop l).headD z = row.getD (l - 1) z := by
  have hlt : l - 1 < row.length := by omega
  have hget : (row.take l).getLast? = some row[l - 1] := by
    rw [List.getLast?_take]
    simp only [if_neg (by omega : ¬l = 0)]
    rw [List.getElem?_eq_getElem hlt]
    rfl
  have hhead : ((row.take l).reverse ++ row.drop l).head? = some row[l - 1] := by
    rw [List.head?_append, List.head?_reverse, hget]
    rfl
  rw [List.headD_eq_head?_getD, hhead, List.getD_eq_getElem _ _ hlt]
  rfl

end TedPolicy

/-- C8: in truncated-window (max-history) mode, _embed_dialogue reverses
each dialogue by its true length before the transformer (so the entry at
the retained position 0 is the true last turn), the dialogue transformer
is configured bidirectional, and only position 0 of the transformer
output is retained; in full-history mode the transformer is configured
unidirectional, no reversal happens, the full per-turn sequence is kept
during training, and only the last valid turn is kept during
inference. -/
theorem c8_dialogue_encoder {V : Type} (z : V)
    (transformer : List (List V) → List (List V)) (gelu embedLayer : V → V)
    (training : Bool) (dialogueIn : List (List V))
    (dialogueLengths : List Nat) (d : Nat) :
    (TedPolicy.dialogueTransformerUnidirectional true = false ∧
      TedPolicy.dialogueTransformerUnidirectional false = true) ∧
    ((TedPolicy.embedDialogue z transformer gelu embedLayer true training
        dialogueIn dialogueLengths d).dialogueTransformed =
      ((transformer (TedPolicy.reverseSequence dialogueIn
        dialogueLengths)).map (List.map gelu)).map (fun row => row.take 1)) ∧
    (∀ i, i < dialogueIn.length → i < dialogueLengths.length →
      1 ≤ dialogueLengths.getD i 0 →
      dialogueLengths.getD i 0 ≤ (dialogueIn.getD i []).length →
      ((TedPolicy.reverseSequence dialogueIn dialogueLengths).getD i
          []).headD z =
        (dialogueIn.getD i []).getD (dialogueLengths.getD i 0 - 1) z) ∧
    ((TedPolicy.embedDialogue z transformer gelu embedLayer false true
        dialogueIn dialogueLengths d).dialogueTransformed =
      (transformer dialogueIn).map (List.map gelu)) ∧
    ((TedPolicy.embedDialogue z transformer gelu embedLayer false false
        dialogueIn dialogueLengths d).dialogueTransformed =
      List.zipWith (fun row l => [TedPolicy.lastToken z row l])
        ((transformer dialogueIn).map (List.map gelu)) dialogueLengths) := by
  refine ⟨⟨rfl, rfl⟩, rfl, ?_, rfl, rfl⟩
  intro i hi hil h1 h2
  have hrev : (TedPolicy.reverseSequence dialogueIn dialogueLengths).getD i [] =
      ((dialogueIn.getD i []).take (dialogueLengths.getD i 0)).reverse ++
        (dialogueIn.getD i []).drop (dialogueLengths.getD i 0) := by
    rw [TedPolicy.reverseSequence]
    have hlt : i < (List.zipWith
        (fun row l => (row.take l).reverse ++ row.drop l)
        dialogueIn dialogueLengths).length := by
      rw [List.length_zipWith]
      omega
    rw [List.getD_eq_getElem _ _ hlt, List.getElem_zipWith,
      List.getD_eq_getElem _ _ hi, List.getD_eq_getElem _ _ hil]
  rw [hrev]
  exact TedPolicy.reverseSequence_head z _ _ h1 h2

/-- C8 witness: on the dialogue [[1, 2]] of true length 2, the reversed
sequence exposes the true last turn (the value 2) at position 0. -/
theorem c8_dialogue_encoder_witness :
    ((0 : Nat) < ([[(1 : ℚ), 2]] : List (List ℚ)).length ∧
      (0 : Nat) < ([2] : List Nat).length ∧
      1 ≤ ([2] : List Nat).getD 0 0 ∧
      ([2] : List Nat).getD 0 0 ≤
        (([[(1 : ℚ), 2]] : List (List ℚ)).getD 0 []).length) ∧
    ((TedPolicy.reverseSequence [[(1 : ℚ), 2]] [2]).getD 0 []).headD 0 =
      (([[(1 : ℚ), 2]] : List (List ℚ)).getD 0 []).getD
        (([2] : List Nat).getD 0 0 - 1) 0 := by
  refine ⟨⟨by norm_num, by norm_num, by simp, by simp⟩, ?_⟩
  exact (c8_dialogue_encoder (0 : ℚ) id id id true [[(1 : ℚ), 2]] [2] 2).2.2.1
    0 (by norm_num) (by norm_num) (by simp) (by simp)

namespace TedPolicy

/-- _compute_dialogue_indices: per dialogue, tf.range of its true
length, flattened into the combined batch-and-dialogue axis. -/
def dialogueIndicesOf (lengths : List Nat) : List Nat :=
  (lengths.map List.range).flatten

/-- tf.repeat(tf.range(batch_dim), non_fake_dialogue_lengths): each
batch index repeated as many times as its mask row has set turns. -/
def batchIndicesOf (mask : List (List Bool)) : List Nat :=
  (List.zipWith (fun b c => List.replicate c b)
    (List.range mask.length) (mask.map maskSum)).flatten

/-- tf.boolean_mask(attribute_mask, tf.sequence_mask(dialogue_lengths)):
the mask rows truncated to the true dialogue lengths, flattened
row-major. -/
def dialogueIndicesMaskOf (mask : List (List Bool)) (lengths : List Nat) :
    List Bool :=
  (List.zipWith (fun row l => row.take l) mask lengths).flatten

/-- The list with entry i replaced by f applied to it (entries beyond
the length are left untouched). -/
def updateAt {α : Type} : List α → Nat → (α → α) → List α
  | [], _, _ => []
  | x :: xs, 0, f => f x :: xs
  | x :: xs, n + 1, f => x :: updateAt xs n f

/-- Componentwise vector addition over the shared width. -/
def addVec (v w : List ℚ) : List ℚ := List.zipWith (· + ·) v w

/-- tf.scatter_nd into a (batch, dialogue, units) zero tensor: each
(batch index, turn index) pair receives the matching update row added at
its position (duplicate indices accumulate, as scatter_nd sums them). -/
def scatterND (indices : List (Nat × Nat)) (updates : List (List ℚ))
    (b d u : Nat) : List (List (List ℚ)) :=
  (indices.zip updates).foldl
    (fun acc p => updateAt acc p.1.1
      (fun row => updateAt row p.1.2 (fun w => addVec w p.2)))
    (zeros3 b d u)

/-- _convert_to_original_shape for dialogue-level attributes: build the
batch and turn indices of the real instances from the attribute mask,
the dialogue lengths and the flattened dialogue indices, then scatter
the flat per-instance feature rows into the full
(batch, dialogue-length, units) grid.  units is the static last
dimension of attribute_features. -/
def convertToOriginalShape (attributeFeatures : List (List ℚ))
    (mask : List (List Bool)) (dialogueLengths : List Nat)
    (dialogueIndices : List Nat) (u : Nat) : List (List (List ℚ)) :=
  let batchDim := mask.length
  let dialogueDim := (mask.headD []).length
  let batchIndices := batchIndicesOf mask
  let idxMask := dialogueIndicesMaskOf mask dialogueLengths
  let turnIndices := booleanMask dialogueIndices idxMask
  let indices := batchIndices.zip turnIndices
  scatterND indices attributeFeatures batchDim dialogueDim u

/-- Data invariant tying a mask row to the true dialogue length: the
padded row is at least as long as the dialogue and the attribute is
never marked present on a padding turn. -/
def MaskRowOk (row : List Bool) (l : Nat) : Prop :=
  l ≤ row.length ∧ ∀ b ∈ row.drop l, b = false

/-- Shape contract of a (batch, dialogue-length, units) tensor. -/
def Shape3 (t : List (List (List ℚ))) (b d u : Nat) : Prop :=
  t.length = b ∧ ∀ row ∈ t, row.length = d ∧ ∀ v ∈ row, v.length = u

lemma zeros3_shape (b d u : Nat) : Shape3 (zeros3 b d u) b d u := by
  refine ⟨List.length_replicate _ _, ?_⟩
  intro row hrow
  rw [List.eq_of_mem_replicate hrow]
  refine ⟨List.length_replicate _ _, ?_⟩
  intro v hv
  rw [List.eq_of_mem_replicate hv]
  exact List.length_replicate _ _

lemma updateAt_length {α : Type} (l : List α) (i : Nat) (f : α → α) :
    (updateAt l i f).length = l.length := by
  induction l generalizing i with
  | nil => rfl
  | cons x xs ih =>
    cases i with
    | zero => rfl
    | succ n => simp [updateAt, ih]

lemma mem_updateAt {α : Type} {l : List α} {i : Nat} {f : α → α} {y : α}
    (h : y ∈ updateAt l i f) : y ∈ l ∨ ∃ x ∈ l, y = f x := by
  induction l generalizing i with
  | nil => cases h
  | cons x xs ih =>
    cases i with
    | zero =>
      rcases List.mem_cons.mp h with h | h
      · exact Or.inr ⟨x, List.mem_cons_self x xs, h⟩
      · exact Or.inl (List.mem_cons_of_mem x h)
    | succ n =>
      rcases List.mem_cons.mp h with h | h
      · exact Or.inl (h ▸ List.mem_cons_self x xs)
      · rcases ih h with h | ⟨w, hw, hyw⟩
        · exact Or.inl (List.mem_cons_of_mem x h)
        · exact Or.inr ⟨w, List.mem_cons_of_mem x hw, hyw⟩

lemma updateAt_getD_ne {α : Type} {l : List α} {i j : Nat} (h : i ≠ j)
    (f : α → α) (dflt : α) : (updateAt l i f).getD j dflt = l.getD j dflt := by
  induction l generalizing i j with
  | nil => rfl
  | cons x xs ih =>
    cases i with
    | zero =>
      cases j with
      | zero => exact absurd rfl h
      | succ m => rfl
    | succ n =>
      cases j with
      | zero => rfl
      | succ m =>
        simp only [updateAt, List.getD_cons_succ]
        exact ih (by omega)

lemma updateAt_getD_eq {α : Type} {l : List α} {i : Nat} (h : i < l.length)
    (f : α → α) (dflt : α) :
    (updateAt l i f).getD i dflt = f (l.getD i dflt) := by
  induction l generalizing i with
  | nil => simp at h
  | cons x xs ih =>
    cases i with
    | zero => rfl
    | succ n =>
      simp only [updateAt, List.getD_cons_succ]
      exact ih (by simpa using h)

lemma updateAt_of_le {α : Type} {l : List α} {i : Nat} (h : l.length ≤ i)
    (f : α → α) : updateAt l i f = l := by
  induction l generalizing i with
  | nil => rfl
  | cons x xs ih =>
    cases i with
    | zero => simp at h
    | succ n =>
      simp only [updateAt, List.cons.injEq, true_and]
      exact ih (by simpa using h)

end TedPolicy

namespace TedPolicy

lemma scatter_step_shape {acc : List (List (List ℚ))} {b d u : Nat}
    (hacc : Shape3 acc b d u) (bi di : Nat) {v : List ℚ} (hv : v.length = u) :
    Shape3 (updateAt acc bi
      (fun row => updateAt row di (fun w => addVec w v))) b d u := by
  obtain ⟨hlen, hrows⟩ := hacc
  refine ⟨by rw [updateAt_length, hlen], ?_⟩
  intro row hrow
  rcases mem_updateAt hrow with hrow | ⟨row0, hrow0, hroweq⟩
  · exact hrows row hrow
  · obtain ⟨hrl, hrv⟩ := hrows row0 hrow0
    subst hroweq
    refine ⟨by rw [updateAt_length, hrl], ?_⟩
    intro w hw
    rcases mem_updateAt hw with hw | ⟨w0, hw0, hweq⟩
    · exact hrv w hw
    · subst hweq
      rw [addVec, List.length_zipWith, hrv w0 hw0, hv]
      exact Nat.min_self u

lemma scatter_fold_shape {pairs : List ((Nat × Nat) × List ℚ)}
    {acc : List (List (List ℚ))} {b d u : Nat} (hacc : Shape3 acc b d u)
    (hupd : ∀ p ∈ pairs, p.2.length = u) :
    Shape3 (pairs.foldl (fun acc p => updateAt acc p.1.1
      (fun row => updateAt row p.1.2 (fun w => addVec w p.2))) acc) b d u := by
  induction pairs generalizing acc with
  | nil => exact hacc
  | cons p ps ih =>
    rw [List.foldl_cons]
    exact ih (scatter_step_shape hacc p.1.1 p.1.2
        (hupd p (List.mem_cons_self p ps)))
      (fun q hq => hupd q (List.mem_cons_of_mem p hq))

lemma scatterND_shape (indices : List (Nat × Nat))
    (updates : List (List ℚ)) (b d u : Nat)
    (hupd : ∀ v ∈ updates, v.length = u) :
    Shape3 (scatterND indices updates b d u) b d u := by
  apply scatter_fold_shape (zeros3_shape b d u)
  intro p hp
  exact hupd p.2 (List.of_mem_zip hp).2

lemma scatter_step_getD_ne {acc : List (List (List ℚ))} {bi di b d : Nat}
    (hne : (bi, di) ≠ (b, d)) (v : List ℚ) :
    (((updateAt acc bi (fun row => updateAt row di
      (fun w => addVec w v))).getD b []).getD d []) =
      ((acc.getD b []).getD d []) := by
  by_cases hb : bi = b
  · subst hb
    have hd : di ≠ d := by
      intro hd
      exact hne (by rw [hd])
    by_cases hblen : bi < acc.length
    · rw [updateAt_getD_eq hblen]
      exact updateAt_getD_ne hd _ _
    · rw [updateAt_of_le (by omega)]
  · rw [updateAt_getD_ne hb]

lemma scatter_fold_getD_not_mem {pairs : List ((Nat × Nat) × List ℚ)}
    {acc : List (List (List ℚ))} {b d : Nat}
    (h : ∀ p ∈ pairs, p.1 ≠ (b, d)) :
    ((pairs.foldl (fun acc p => updateAt acc p.1.1
      (fun row => updateAt row p.1.2 (fun w => addVec w p.2)))
        acc).getD b []).getD d [] = (acc.getD b []).getD d [] := by
  induction pairs generalizing acc with
  | nil => rfl
  | cons p ps ih =>
    rw [List.foldl_cons,
      ih (fun q hq => h q (List.mem_cons_of_mem p hq))]
    exact scatter_step_getD_ne (h p (List.mem_cons_self p ps)) p.2

lemma scatterND_getD_not_mem {indices : List (Nat × Nat)}
    {updates : List (List ℚ)} {b d u bDim dDim : Nat}
    (hb : b < bDim) (hd : d < dDim) (h : (b, d) ∉ indices) :
    ((scatterND indices updates bDim dDim u).getD b []).getD d [] =
      zeroVec u := by
  rw [scatterND, scatter_fold_getD_not_mem (fun p hp => by
    intro hpe
    exact h (hpe ▸ (List.of_mem_zip hp).1))]
  have houter : (List.replicate bDim
      (List.replicate dDim (zeroVec u))).getD b [] =
      List.replicate dDim (zeroVec u) := by
    rw [List.getD_eq_getElem _ _ (by simpa using hb), List.getElem_replicate]
  rw [zeros3, houter, List.getD_eq_getElem _ _ (by simpa using hd),
    List.getElem_replicate]

end TedPolicy

namespace TedPolicy

lemma booleanMask_append {α : Type} {xs ys : List α} {bs cs : List Bool}
    (h : xs.length = bs.length) :
    booleanMask (xs ++ ys) (bs ++ cs) =
      booleanMask xs bs ++ booleanMask ys cs := by
  rw [booleanMask, booleanMask, booleanMask, List.zip_append h,
    List.filterMap_append]

lemma booleanMask_mem_spec {y : Nat} :
    ∀ (xs : List Nat) (bs : List Bool), y ∈ booleanMask xs bs →
      ∃ i, i < xs.length ∧ i < bs.length ∧ xs.getD i 0 = y ∧
        bs.getD i false = true := by
  intro xs
  induction xs with
  | nil => intro bs h; simp [booleanMask] at h
  | cons x xs ih =>
    intro bs h
    cases bs with
    | nil => simp [booleanMask] at h
    | cons b bs =>
      rw [booleanMask, List.zip_cons_cons, List.filterMap_cons] at h
      cases b with
      | false =>
        obtain ⟨i, h1, h2, h3, h4⟩ := ih bs h
        exact ⟨i + 1, by simpa using h1, by simpa using h2, h3, h4⟩
      | true =>
        simp only [if_pos trivial] at h
        rcases List.mem_cons.mp h with h | h
        · exact ⟨0, by simp, by simp, h.symm, rfl⟩
        · obtain ⟨i, h1, h2, h3, h4⟩ := ih bs h
          exact ⟨i + 1, by simpa using h1, by simpa using h2, h3, h4⟩

lemma getD_take {α : Type} {row : List α} {l y : Nat} (h : y < l)
    (dflt : α) : (row.take l).getD y dflt = row.getD y dflt := by
  rw [List.getD_eq_getElem?_getD, List.getD_eq_getElem?_getD,
    List.getElem?_take, if_pos h]

lemma mem_booleanMask_range {l y : Nat} {bs : List Bool}
    (h : y ∈ booleanMask (List.range l) bs) :
    y < l ∧ bs.getD y false = true := by
  obtain ⟨i, h1, h2, h3, h4⟩ := booleanMask_mem_spec (List.range l) bs h
  rw [List.length_range] at h1
  have : (List.range l).getD i 0 = i := by
    rw [List.getD_eq_getElem _ _ (by simpa using h1), List.getElem_range]
  rw [this] at h3
  subst h3
  exact ⟨h1, h4⟩

lemma maskSum_take {row : List Bool} {l : Nat}
    (hall : ∀ b ∈ row.drop l, b = false) :
    maskSum row = maskSum (row.take l) := by
  conv_lhs => rw [← List.take_append_drop l row]
  rw [maskSum, maskSum, List.filter_append, List.length_append]
  have : (row.drop l).filter (fun b => b) = [] := by
    rw [List.filter_eq_nil_iff]
    intro a ha
    rw [hall a ha]
    exact Bool.false_ne_true
  rw [this, List.length_nil]
  omega

lemma batchIndicesOf_cons (row : List Bool) (M : List (List Bool)) :
    batchIndicesOf (row :: M) =
      List.replicate (maskSum row) 0 ++ (batchIndicesOf M).map (· + 1) := by
  rw [batchIndicesOf, batchIndicesOf]
  simp only [List.length_cons, List.map_cons]
  rw [List.range_succ_eq_map, List.zipWith_cons_cons, List.flatten_cons]
  congr 1
  rw [List.zipWith_map_left, List.map_flatten, List.map_zipWith]
  simp [List.map_replicate, Nat.succ_eq_add_one]

lemma zip_replicate_left {α β : Type} {c : Nat} (a : α) :
    ∀ (ys : List β), ys.length = c →
      (List.replicate c a).zip ys = ys.map (fun y => (a, y)) := by
  induction c with
  | zero =>
    intro ys h
    rw [List.length_eq_zero.mp h]
    rfl
  | succ n ih =>
    intro ys h
    cases ys with
    | nil => simp at h
    | cons y ys =>
      rw [List.replicate_succ, List.zip_cons_cons, List.map_cons,
        ih ys (by simpa using h)]

end TedPolicy

namespace TedPolicy

lemma indices_mem_mask_true {mask : List (List Bool)} {lengths : List Nat}
    (h : List.Forall₂ MaskRowOk mask lengths) :
    ∀ p ∈ (batchIndicesOf mask).zip
      (booleanMask (dialogueIndicesOf lengths)
        (dialogueIndicesMaskOf mask lengths)),
      (mask.getD p.1 []).getD p.2 false = true := by
  induction h with
  | nil =>
    intro p hp
    simp [batchIndicesOf, dialogueIndicesOf, dialogueIndicesMaskOf,
      booleanMask] at hp
  | @cons row l M L hrl htail ih =>
    intro p hp
    obtain ⟨hle, hfalse⟩ := hrl
    have hdi : dialogueIndicesOf (l :: L) =
        List.range l ++ dialogueIndicesOf L := by
      rw [dialogueIndicesOf, List.map_cons, List.flatten_cons]
      rfl
    have hdm : dialogueIndicesMaskOf (row :: M) (l :: L) =
        row.take l ++ dialogueIndicesMaskOf M L := by
      rw [dialogueIndicesMaskOf, List.zipWith_cons_cons, List.flatten_cons]
      rfl
    have hlen1 : (List.range l).length = (row.take l).length := by
      rw [List.length_range, List.length_take]
      omega
    have hB1len : (booleanMask (List.range l) (row.take l)).length =
        maskSum row := by
      rw [booleanMask_length hlen1.symm, ← maskSum_take hfalse]
    have hzip : (batchIndicesOf (row :: M)).zip
        (booleanMask (dialogueIndicesOf (l :: L))
          (dialogueIndicesMaskOf (row :: M) (l :: L))) =
        (List.replicate (maskSum row) 0).zip
          (booleanMask (List.range l) (row.take l)) ++
        ((batchIndicesOf M).map (· + 1)).zip
          (booleanMask (dialogueIndicesOf L)
            (dialogueIndicesMaskOf M L)) := by
      rw [batchIndicesOf_cons, hdi, hdm, booleanMask_append hlen1]
      exact List.zip_append (by rw [List.length_replicate, hB1len])
    rw [hzip, List.mem_append] at hp
    rcases hp with hp | hp
    · rw [zip_replicate_left 0 _ hB1len] at hp
      obtain ⟨y, hy, hpy⟩ := List.mem_map.mp hp
      obtain ⟨hyl, hyt⟩ := mem_booleanMask_range hy
      rw [← hpy]
      show ((row :: M).getD 0 []).getD y false = true
      rw [List.getD_cons_zero, ← getD_take hyl false]
      exact hyt
    · rw [List.zip_map_left] at hp
      obtain ⟨q, hq, hpq⟩ := List.mem_map.mp hp
      rw [← hpq]
      show ((row :: M).getD (q.1 + 1) []).getD q.2 false = true
      rw [List.getD_cons_succ]
      exact ih q hq

end TedPolicy

/-- C7: the fake path emits an all-zero tensor of shape
(batch, dialogue-length, units) read off the attribute mask; the real
path, which scatters the flat per-instance feature rows back into the
grid, produces a tensor of exactly the same shape; and every position
whose mask bit is unset (no real instance) remains the zero vector after
scatter-restoration. -/
theorem c7_shape_restoration (mask : List (List Bool)) (lengths : List Nat)
    (features : List (List ℚ)) (u : Nat)
    (hinv : List.Forall₂ TedPolicy.MaskRowOk mask lengths)
    (hfeat : ∀ v ∈ features, v.length = u) :
    TedPolicy.Shape3
      (TedPolicy.encodeFakeFeaturesPerAttribute mask u).attributeFeatures
      mask.length (mask.headD []).length u ∧
    (∀ row ∈ (TedPolicy.encodeFakeFeaturesPerAttribute mask
        u).attributeFeatures, ∀ v ∈ row, v = TedPolicy.zeroVec u) ∧
    TedPolicy.Shape3
      (TedPolicy.convertToOriginalShape features mask lengths
        (TedPolicy.dialogueIndicesOf lengths) u)
      mask.length (mask.headD []).length u ∧
    (∀ b d, b < mask.length → d < (mask.headD []).length →
      (mask.getD b []).getD d false = false →
      ((TedPolicy.convertToOriginalShape features mask lengths
        (TedPolicy.dialogueIndicesOf lengths) u).getD b []).getD d [] =
        TedPolicy.zeroVec u) := by
  refine ⟨TedPolicy.zeros3_shape _ _ _, ?_, ?_, ?_⟩
  · intro row hrow v hv
    rw [TedPolicy.encodeFakeFeaturesPerAttribute] at hrow
    exact List.eq_of_mem_replicate
      (List.eq_of_mem_replicate hrow ▸ hv)
  · simp only [TedPolicy.convertToOriginalShape]
    exact TedPolicy.scatterND_shape _ _ _ _ _ hfeat
  · intro b d hb hd hmaskbd
    simp only [TedPolicy.convertToOriginalShape]
    apply TedPolicy.scatterND_getD_not_mem hb hd
    intro hmem
    have := TedPolicy.indices_mem_mask_true hinv (b, d) hmem
    rw [hmaskbd] at this
    exact Bool.false_ne_true this

/-- C7 witness: a two-dialogue batch where only the first turn of the
first dialogue carries the attribute; the single feature row is
scattered there, and the remaining three positions stay zero with the
overall shape (2, 2, 2) on both the fake and the real path. -/
theorem c7_shape_restoration_witness :
    (List.Forall₂ TedPolicy.MaskRowOk [[true, false], [false, false]]
        [2, 1] ∧
      (∀ v ∈ ([[1, 2]] : List (List ℚ)), v.length = 2)) ∧
    (TedPolicy.Shape3
      (TedPolicy.encodeFakeFeaturesPerAttribute
        [[true, false], [false, false]] 2).attributeFeatures 2 2 2 ∧
    (∀ row ∈ (TedPolicy.encodeFakeFeaturesPerAttribute
        [[true, false], [false, false]] 2).attributeFeatures,
      ∀ v ∈ row, v = TedPolicy.zeroVec 2) ∧
    TedPolicy.Shape3
      (TedPolicy.convertToOriginalShape [[1, 2]]
        [[true, false], [false, false]] [2, 1]
        (TedPolicy.dialogueIndicesOf [2, 1]) 2) 2 2 2 ∧
    (∀ b d, b < 2 → d < 2 →
      (([[true, false], [false, false]] :
          List (List Bool)).getD b []).getD d false = false →
      ((TedPolicy.convertToOriginalShape [[1, 2]]
        [[true, false], [false, false]] [2, 1]
        (TedPolicy.dialogueIndicesOf [2, 1]) 2).getD b []).getD d [] =
        TedPolicy.zeroVec 2)) := by
  have hinv : List.Forall₂ TedPolicy.MaskRowOk
      [[true, false], [false, false]] [2, 1] := by
    refine List.Forall₂.cons ⟨by simp, ?_⟩
      (List.Forall₂.cons ⟨by simp, ?_⟩ List.Forall₂.nil)
    · intro b hb
      simp at hb
    · intro b hb
      simp at hb
      exact hb
  have hfeat : ∀ v ∈ ([[1, 2]] : List (List ℚ)), v.length = 2 := by
    intro v hv
    simp at hv
    rw [hv]
    rfl
  exact ⟨⟨hinv, hfeat⟩,
    c7_shape_restoration [[true, false], [false, false]] [2, 1]
      [[1, 2]] 2 hinv hfeat⟩
